import Mathlib

/-!
Verification model of `stl_to_openscad.go` (asig/stl_to_openscad).

The program converts STL meshes (ASCII or binary) to an OpenSCAD
`polyhedron` module.  The model below is a shallow embedding of its
functions:

* coordinates are modelled as exact rationals (`ℚ`); the Go program uses
  `float32` and the spec states its geometric properties up to
  floating-point tolerance, so the model abstracts the rounding of
  `float32` arithmetic while keeping every structural step of the code;
* the ASCII scanner's token stream is modelled as a list of tokens, with
  numeric tokens carried as their parsed values (a token either is a word
  or parses as a float; `strconv.ParseFloat` is abstracted by that split);
* byte streams for the binary decoder are lists of naturals `< 256`;
* `log.Fatalf` (which aborts the process) is modelled with
  `Except String` / `Option` results.
-/

set_option maxHeartbeats 1000000

namespace Stl

/-- Model of the Go struct `point` (three `float32` coordinates),
with the coordinates as exact rationals. -/
structure point where
  x : ℚ
  y : ℚ
  z : ℚ
deriving DecidableEq

/-- Model of the Go method `(p point) add(q point) point`:
component-wise addition. -/
def point.add (p q : point) : point :=
  ⟨p.x + q.x, p.y + q.y, p.z + q.z⟩

/-- Model of the Go struct `polygon` (one facet; the decoders always fill
in exactly 3 vertices). -/
structure polygon where
  vertices : List point
deriving DecidableEq

/-- The sentinel `math.MaxFloat32` used by `boundingBox` as the initial
accumulator, as an exact rational: `(2 - 2^-23) * 2^127`. -/
def maxFloat32 : ℚ := 2 ^ 128 - 2 ^ 104

/-- One step of the `boundingBox` loop body: fold the vertex `v` into the
running `(min, max)` pair, coordinate-wise (the Go code uses `math.Min` /
`math.Max` on each coordinate). -/
def bbStep (acc : point × point) (v : point) : point × point :=
  (⟨min acc.1.x v.x, min acc.1.y v.y, min acc.1.z v.z⟩,
   ⟨max acc.2.x v.x, max acc.2.y v.y, max acc.2.z v.z⟩)

/-- Model of `(polygons polygons) boundingBox() (min, max point)`: fold
over all vertices of all facets, starting from the
`(MaxFloat32, -MaxFloat32)` sentinels. -/
def boundingBox (ps : List polygon) : point × point :=
  ps.foldl (fun acc p => p.vertices.foldl bbStep acc)
    (⟨maxFloat32, maxFloat32, maxFloat32⟩, ⟨-maxFloat32, -maxFloat32, -maxFloat32⟩)

/-- The translation vector computed by `postProcess`:
`delta = (-min.x - (max.x-min.x)/2, -min.y - (max.y-min.y)/2, -min.z)`. -/
def delta (ps : List polygon) : point :=
  ⟨-(boundingBox ps).1.x - ((boundingBox ps).2.x - (boundingBox ps).1.x) / 2,
   -(boundingBox ps).1.y - ((boundingBox ps).2.y - (boundingBox ps).1.y) / 2,
   -(boundingBox ps).1.z⟩

/-- Model of `postProcess`: when the `center` flag is set, add `delta` to
every vertex of every facet (the Go code mutates in place; the model
returns the new facet list). -/
def postProcess (center : Bool) (ps : List polygon) : List polygon :=
  if center then ps.map (fun p => ⟨p.vertices.map (fun v => v.add (delta ps))⟩)
  else ps

/-- All vertices of all facets, in facet order (the iteration order of
`boundingBox` and of the serializer's point list). -/
def vertsOf (ps : List polygon) : List point :=
  (ps.map polygon.vertices).flatten

/-- Every coordinate of every vertex lies in the range of finite
`float32` values.  This holds for any mesh the Go program can represent
(every `float32` is bounded by `math.MaxFloat32` in absolute value). -/
def coordsBounded (ps : List polygon) : Prop :=
  ∀ p ∈ ps, ∀ v ∈ p.vertices,
    (-maxFloat32 ≤ v.x ∧ v.x ≤ maxFloat32) ∧
    (-maxFloat32 ≤ v.y ∧ v.y ≤ maxFloat32) ∧
    (-maxFloat32 ≤ v.z ∧ v.z ≤ maxFloat32)

/-- Concrete mesh used by the witnesses of C1 and C8. -/
def wmesh : List polygon := [⟨[⟨0, 0, 0⟩, ⟨2, 0, 0⟩, ⟨0, 2, 2⟩]⟩]

/-! ### Float formatting (`ftos`)

`ftos` receives a `float32`.  A finite `float32` is a sign bit plus a
nonnegative dyadic magnitude, modelled here as `sfloat` (this keeps the
negative-zero case, which `ℚ` alone cannot represent).  `fmt.Sprintf`
with verb `%.10f` renders the exact binary value correctly rounded to 10
fixed decimal places (ties to even), with a leading `-` when the sign bit
is set — including for negative zero. -/

/-- A finite `float32` value: sign bit and nonnegative magnitude. -/
structure sfloat where
  sign : Bool
  mag : ℚ
deriving DecidableEq

/-- Round to the nearest integer, ties to even (the rounding of
`strconv.FormatFloat` when producing a fixed number of decimals). -/
def rhe (q : ℚ) : ℤ :=
  if q - ⌊q⌋ < 1 / 2 then ⌊q⌋
  else if 1 / 2 < q - ⌊q⌋ then ⌊q⌋ + 1
  else if ⌊q⌋ % 2 = 0 then ⌊q⌋ else ⌊q⌋ + 1

/-- Left-pad a digit list with zeros to width 10 (the fractional part of
`%.10f` always has exactly 10 digits). -/
def pad10 (s : List Char) : List Char :=
  List.replicate (10 - s.length) '0' ++ s

/-- The text of `fmt.Sprintf("%.10f", val)` for a value with the given
sign whose magnitude rounds to `n` units of `10^-10`. -/
def fmtFixed10 (sign : Bool) (n : ℕ) : List Char :=
  (if sign then ['-'] else []) ++ Nat.toDigits 10 (n / 10 ^ 10)
    ++ ['.'] ++ pad10 (Nat.toDigits 10 (n % 10 ^ 10))

/-- `fmt.Sprintf("%.10f", val)` on a modelled `float32`. -/
def sprintf10 (v : sfloat) : List Char :=
  fmtFixed10 v.sign (rhe (v.mag * 10 ^ 10)).toNat

/-- The Go loop `for strings.HasSuffix(s, "0") { s = s[:len(s)-1] }`:
drop every trailing `'0'`. -/
def stripZeros (s : List Char) : List Char :=
  (s.reverse.dropWhile (fun c => c = '0')).reverse

/-- The Go conditional `if strings.HasSuffix(s, ".") { s = s[:len(s)-1] }`:
drop one trailing `'.'` if present. -/
def stripDot (s : List Char) : List Char :=
  if s.getLast? = some '.' then s.dropLast else s

/-- Model of `ftos`: format with `%.10f`, strip trailing zeros, then a
bare trailing decimal point. -/
def ftos (v : sfloat) : String :=
  String.mk (stripDot (stripZeros (sprintf10 v)))

/-- `ftos` on a plain rational (used for mesh coordinates; a rational
carries no negative zero, so the sign is just `q < 0`). -/
def ftosQ (q : ℚ) : String :=
  ftos ⟨decide (q < 0), |q|⟩

/-- Model of `pointToOpenScad`: `[x,y,z]` with each coordinate through
`ftos`. -/
def pointToOpenScad (pt : point) : String :=
  "[" ++ ftosQ pt.x ++ "," ++ ftosQ pt.y ++ "," ++ ftosQ pt.z ++ "]"

/-! ### Serializer (`facesToOpenScad`, the lists built by `writeOpenScad`) -/

/-- Model of Go's `strings.Join`. -/
def joinSep (sep : String) : List String → String
  | [] => ""
  | [s] => s
  | s :: t :: rest => s ++ sep ++ joinSep sep (t :: rest)

/-- Model of `facesToOpenScad(start, len)`: the string
`"[start,start+1,...,start+len-1]"`. -/
def facesToOpenScad (start l : ℕ) : String :=
  "[" ++ joinSep "," ((List.range l).map (fun i => toString (start + i))) ++ "]"

/-- The loop body of `writeOpenScad`: accumulate the point strings, the
face string of the current facet (at the running offset `ofs`), and
advance `ofs` by the vertex count. -/
def scadStep (acc : List String × List String × ℕ) (p : polygon) :
    List String × List String × ℕ :=
  (acc.1 ++ p.vertices.map pointToOpenScad,
   acc.2.1 ++ [facesToOpenScad acc.2.2 p.vertices.length],
   acc.2.2 + p.vertices.length)

/-- The `points` list, `faces` list and final offset built by the loop of
`writeOpenScad`. -/
def scadLists (ps : List polygon) : List String × List String × ℕ :=
  ps.foldl scadStep ([], [], 0)

/-- Concrete two-facet mesh used by the C5 witness. -/
def wmesh2 : List polygon :=
  [⟨[⟨0, 0, 0⟩, ⟨1, 0, 0⟩, ⟨0, 1, 0⟩]⟩, ⟨[⟨0, 0, 1⟩, ⟨1, 0, 1⟩, ⟨0, 1, 1⟩]⟩]

/-! ### Module name resolution and format detection -/

/-- Model of the module-name resolution across `init`, `readAscii` and
`main`: `init` sets the name from the `-module` flag; `readAscii`
overwrites an empty name with the solid name declared in the file;
`main` falls back to `"shape"` when the name is still empty.
`fileName` is `some s` when the input was an ASCII file declaring solid
name `s`, and `none` for binary input (which declares no name). -/
def resolveModuleName (flagName : String) (fileName : Option String) : String :=
  let m1 := match fileName with
    | some s => if flagName = "" then s else flagName
    | none => flagName
  if m1 = "" then "shape" else m1

/-- The ASCII bytes of `"solid "` (case-sensitive, with the trailing
space), compared by the format detector. -/
def solidMagic : List ℕ := [115, 111, 108, 105, 100, 32]

/-- The two decoders `main` can dispatch to. -/
inductive Format where
  | ascii : Format
  | binary : Format
deriving DecidableEq

/-- Model of the dispatch in `main`: peek at the first (up to) 6 bytes
without consuming them — the chosen decoder receives the whole stream,
returned as the second component — and compare them with `"solid "`.
`input.Peek(6)` on a short stream returns the available bytes (the error
return is discarded by the code), which `List.take` models. -/
def detectFormat (bs : List ℕ) : Format × List ℕ :=
  (if bs.take 6 = solidMagic then .ascii else .binary, bs)

/-! ### ASCII decoder

`bufio.ScanWords` splits the input into whitespace-delimited tokens.  A
token either is a plain word or parses as a decimal float via
`strconv.ParseFloat`; the model carries numeric tokens as their parsed
values (`Tok.num`), abstracting the numeral text.  A numeral never
equals a keyword, so keyword comparisons on `Tok.num` correctly fail,
and `readFloat` on a plain word correctly fails.  The scanner's
behaviour at end of input (`Scan` returns false, `Text` returns `""`)
is modelled by `next` yielding the pseudo-token `Tok.word ""`.
`log.Fatalf` becomes `Except.error` carrying the message. -/

/-- A scanner token: a word, or a numeric token carried as its parsed
value (the numeral's source text is abstracted away). -/
inductive Tok where
  | word : String → Tok
  | num : ℚ → Tok
deriving DecidableEq

/-- `scanner.Text()` of a token.  For numeric tokens the source numeral
is not tracked by the model; it is only interpolated into error
messages and never compared against keywords. -/
def Tok.text : Tok → String
  | .word s => s
  | .num _ => ""

/-- One `scanner.Scan(); scanner.Text()` step: the current token and the
remaining stream (`Tok.word ""` at end of input). -/
def next : List Tok → Tok × List Tok
  | [] => (.word "", [])
  | t :: ts => (t, ts)

/-- Model of `expect`: scan one token and compare it with the expected
keyword; mismatch is fatal with a message naming expected vs actual. -/
def expect (expected : String) (ts : List Tok) : Except String (List Tok) :=
  if (next ts).1 = Tok.word expected then .ok (next ts).2
  else .error ("Expected \"" ++ expected ++ "\", but got \""
      ++ (next ts).1.text ++ "\".")

/-- Model of `readFloat`: scan one token and parse it as a float; a
token that does not parse is fatal, naming the offending token. -/
def readFloat (ts : List Tok) : Except String (ℚ × List Tok) :=
  match next ts with
  | (.num q, ts') => .ok (q, ts')
  | (.word s, _) => .error ("Cannot convert \"" ++ s ++ "\" to float.")

/-- Model of the ASCII `readPoint`: three floats. -/
def readPoint (ts : List Tok) : Except String (point × List Tok) := do
  let (x, ts) ← readFloat ts
  let (y, ts) ← readFloat ts
  let (z, ts) ← readFloat ts
  return (⟨x, y, z⟩, ts)

/-- Model of `readFacet` (the `"facet"` keyword is already consumed by
the caller): normal (discarded), `outer loop`, three `vertex` points,
`endloop`, `endfacet`. -/
def readFacet (ts : List Tok) : Except String (polygon × List Tok) := do
  let ts ← expect "normal" ts
  let (_, ts) ← readPoint ts
  let ts ← expect "outer" ts
  let ts ← expect "loop" ts
  let ts ← expect "vertex" ts
  let (v1, ts) ← readPoint ts
  let ts ← expect "vertex" ts
  let (v2, ts) ← readPoint ts
  let ts ← expect "vertex" ts
  let (v3, ts) ← readPoint ts
  let ts ← expect "endloop" ts
  let ts ← expect "endfacet" ts
  return (⟨[v1, v2, v3]⟩, ts)

/-- The `for scanner.Text() == "facet"` loop of `readAscii`: collect one
facet per iteration; on exit return the current (non-`"facet"`) token
and the remaining stream.  The fuel argument is only a termination
artifact: the caller passes more fuel than there are tokens, and each
iteration consumes at least one token, so the `0` case is unreachable. -/
def readFacetsLoop : ℕ → List Tok → Except String (List polygon × Tok × List Tok)
  | 0, ts =>
      if (next ts).1 = Tok.word "facet" then .error "fuel exhausted"
      else .ok ([], (next ts).1, (next ts).2)
  | fuel + 1, ts =>
      if (next ts).1 = Tok.word "facet" then do
        let (p, ts2) ← readFacet (next ts).2
        let (ps, tk, rest) ← readFacetsLoop fuel ts2
        return (p :: ps, tk, rest)
      else .ok ([], (next ts).1, (next ts).2)

/-- Model of `readAscii`: `solid`, a name token (captured), the facet
loop, `endsolid`, one skipped name token.  It returns the declared name,
the facets, and the stream left unread. -/
def readAscii (ts : List Tok) : Except String (String × List polygon × List Tok) := do
  let ts ← expect "solid" ts
  let nameTok := (next ts).1
  let ts := (next ts).2
  let (ps, tk, rest) ← readFacetsLoop (ts.length + 1) ts
  if tk = Tok.word "endsolid" then
    return (nameTok.text, ps, (next rest).2)
  else
    .error ("Expected \"endsolid\", but got \"" ++ tk.text ++ "\".")

/-! #### ASCII encoder: the token streams of the grammar -/

/-- The three numeric tokens of a point. -/
def pointToks (p : point) : List Tok := [.num p.x, .num p.y, .num p.z]

/-- One source triangle: normal plus three vertices. -/
structure tri where
  nrm : point
  a : point
  b : point
  c : point
deriving DecidableEq

/-- The facet decoded from a triangle: its three vertices in order (the
normal is discarded). -/
def tri.poly (t : tri) : polygon := ⟨[t.a, t.b, t.c]⟩

/-- The tokens of one facet block after the `"facet"` keyword. -/
def triBody (t : tri) : List Tok :=
  .word "normal" :: pointToks t.nrm ++ .word "outer" :: .word "loop" ::
  .word "vertex" :: pointToks t.a ++ .word "vertex" :: pointToks t.b ++
  .word "vertex" :: pointToks t.c ++ [.word "endloop", .word "endfacet"]

/-- The tokens of one full `facet ... endfacet` block. -/
def triToks (t : tri) : List Tok := .word "facet" :: triBody t

/-- A full ASCII STL token stream: `solid <name>`, the facet blocks,
`endsolid`, then arbitrary remaining tokens (the token after `endsolid`
is consumed as the trailing name and never validated). -/
def asciiToks (name : Tok) (fs : List tri) (rest : List Tok) : List Tok :=
  .word "solid" :: name :: (fs.map triToks).flatten ++ .word "endsolid" :: rest

/-! ### Binary decoder

The byte stream is a list of naturals `< 256`.  `binary.Read` with
`binary.LittleEndian` on a `float32` reads 4 bytes as a little-endian
32-bit word and reinterprets it as an IEEE-754 binary32 value;
`f32ofBits` decodes such a word into an exact rational (exponent 255,
infinities and NaNs, has no rational counterpart and is mapped to 0; the
claims never exercise it).  The Go code ignores the error returns of
`Discard` and `binary.Read`, so truncated streams yield unspecified
partial reads (the spec calls this undefined); the model returns `none`
on truncation, which the claims (all about well-formed streams) never
hit. -/

/-- Decode an IEEE-754 binary32 bit pattern into an exact rational. -/
def f32ofBits (w : ℕ) : ℚ :=
  let sign : ℕ := w / 2 ^ 31 % 2
  let e : ℕ := w / 2 ^ 23 % 2 ^ 8
  let m : ℕ := w % 2 ^ 23
  let mag : ℚ :=
    if e = 255 then 0
    else if e = 0 then (m : ℚ) / 2 ^ 149
    else (((2 ^ 23 + m : ℕ) : ℚ) * 2 ^ e) / 2 ^ 150
  if sign = 1 then -mag else mag

/-- Read a 4-byte little-endian 32-bit word. -/
def rdU32LE : List ℕ → Option (ℕ × List ℕ)
  | b0 :: b1 :: b2 :: b3 :: rest =>
      some (b0 + 256 * (b1 + 256 * (b2 + 256 * b3)), rest)
  | _ => none

/-- `bufio.Reader.Discard(n)`: drop `n` bytes. -/
def discardB (n : ℕ) (bs : List ℕ) : Option (List ℕ) :=
  if n ≤ bs.length then some (bs.drop n) else none

/-- Model of `readPointBinary`: three little-endian 32-bit floats. -/
def readPointBinary (bs : List ℕ) : Option (point × List ℕ) := do
  let (wx, bs) ← rdU32LE bs
  let (wy, bs) ← rdU32LE bs
  let (wz, bs) ← rdU32LE bs
  return (⟨f32ofBits wx, f32ofBits wy, f32ofBits wz⟩, bs)

/-- The triangle loop of `readBinary`: for each of `n` records skip the
12-byte normal, read 3 points, skip the 2-byte attribute count, and
append one facet. -/
def readTriangles : ℕ → List ℕ → Option (List polygon × List ℕ)
  | 0, bs => some ([], bs)
  | n + 1, bs => do
    let bs ← discardB 12 bs
    let (p1, bs) ← readPointBinary bs
    let (p2, bs) ← readPointBinary bs
    let (p3, bs) ← readPointBinary bs
    let bs ← discardB 2 bs
    let (ps, bs2) ← readTriangles n bs
    return (⟨[p1, p2, p3]⟩ :: ps, bs2)

/-- Model of `readBinary`: skip the 80-byte header, read the 4-byte
little-endian triangle count, then the triangle records; trailing bytes
are left unread. -/
def readBinary (bs : List ℕ) : Option (List polygon) := do
  let bs ← discardB 80 bs
  let (n, bs) ← rdU32LE bs
  let (ps, _) ← readTriangles n bs
  return ps

/-! #### Binary encoder: the byte layout of well-formed streams -/

/-- The 4 little-endian bytes of a 32-bit word. -/
def le32 (w : ℕ) : List ℕ :=
  [w % 256, w / 256 % 256, w / 65536 % 256, w / 16777216 % 256]

/-- One source triangle record: 12 normal bytes, three vertices as
32-bit words, 2 attribute bytes. -/
structure brec where
  nrm : List ℕ
  p1 : ℕ × ℕ × ℕ
  p2 : ℕ × ℕ × ℕ
  p3 : ℕ × ℕ × ℕ
  att : List ℕ
deriving DecidableEq

/-- The point decoded from a vertex's three words. -/
def wpt (w : ℕ × ℕ × ℕ) : point :=
  ⟨f32ofBits w.1, f32ofBits w.2.1, f32ofBits w.2.2⟩

/-- The facet decoded from a record: its three vertices in order (normal
and attribute bytes are discarded). -/
def brec.poly (r : brec) : polygon := ⟨[wpt r.p1, wpt r.p2, wpt r.p3]⟩

/-- The 12 bytes of one encoded vertex. -/
def encPt (w : ℕ × ℕ × ℕ) : List ℕ := le32 w.1 ++ le32 w.2.1 ++ le32 w.2.2

/-- The 50 bytes of one encoded record. -/
def brec.bytes (r : brec) : List ℕ :=
  r.nrm ++ encPt r.p1 ++ encPt r.p2 ++ encPt r.p3 ++ r.att

/-- A full binary STL stream: 80-byte header, little-endian triangle
count, then the 50-byte records. -/
def encodeBinary (hdr : List ℕ) (recs : List brec) : List ℕ :=
  hdr ++ le32 recs.length ++ (recs.map brec.bytes).flatten

/-- The three words of a vertex fit in 32 bits. -/
def w32 (w : ℕ × ℕ × ℕ) : Prop :=
  w.1 < 4294967296 ∧ w.2.1 < 4294967296 ∧ w.2.2 < 4294967296

/-- Well-formedness of an encoded binary stream: 80-byte header, record
count in 32-bit range, 12-byte normals, 2-byte attributes, 32-bit
vertex words. -/
def binWF (hdr : List ℕ) (recs : List brec) : Prop :=
  hdr.length = 80 ∧ recs.length < 4294967296 ∧
  ∀ r ∈ recs, r.nrm.length = 12 ∧ r.att.length = 2 ∧
    w32 r.p1 ∧ w32 r.p2 ∧ w32 r.p3

/-- Concrete header, record and stream for the C3/C4 witnesses. -/
def whdr : List ℕ := List.replicate 80 0

/-- A concrete binary record (zero normal, three zero vertices, zero
attribute bytes). -/
def wrec : brec := ⟨List.replicate 12 0, (0, 0, 0), (0, 0, 0), (0, 0, 0), [0, 0]⟩

/-! ### Theorems -/

theorem maxFloat32_nonneg : (0 : ℚ) ≤ maxFloat32 := by norm_num [maxFloat32]

/-! ### Fold lemmas for the bounding box -/

theorem foldl_min_comm (l : List ℚ) : ∀ a b : ℚ,
    l.foldl min (min a b) = min a (l.foldl min b) := by
  induction l with
  | nil => intro a b; rfl
  | cons x t ih =>
    intro a b
    simp only [List.foldl_cons]
    rw [min_assoc, ih]

theorem foldl_max_comm (l : List ℚ) : ∀ a b : ℚ,
    l.foldl max (max a b) = max a (l.foldl max b) := by
  induction l with
  | nil => intro a b; rfl
  | cons x t ih =>
    intro a b
    simp only [List.foldl_cons]
    rw [max_assoc, ih]

theorem foldl_min_shift (l : List ℚ) : ∀ a d : ℚ,
    (l.map (fun u => u + d)).foldl min (a + d) = l.foldl min a + d := by
  induction l with
  | nil => intro a d; rfl
  | cons x t ih =>
    intro a d
    simp only [List.map_cons, List.foldl_cons]
    rw [min_add_add_right, ih]

theorem foldl_max_shift (l : List ℚ) : ∀ a d : ℚ,
    (l.map (fun u => u + d)).foldl max (a + d) = l.foldl max a + d := by
  induction l with
  | nil => intro a d; rfl
  | cons x t ih =>
    intro a d
    simp only [List.map_cons, List.foldl_cons]
    rw [max_add_add_right, ih]

theorem foldl_min_le_init (l : List ℚ) : ∀ a : ℚ, l.foldl min a ≤ a := by
  induction l with
  | nil => intro a; exact le_refl a
  | cons x t ih =>
    intro a
    exact le_trans (ih (min a x)) (min_le_left a x)

theorem foldl_max_ge_init (l : List ℚ) : ∀ a : ℚ, a ≤ l.foldl max a := by
  induction l with
  | nil => intro a; exact le_refl a
  | cons x t ih =>
    intro a
    exact le_trans (le_max_left a x) (ih (max a x))

/-- The min-fold and the max-fold over the same list from the same start
are ordered. -/
theorem foldl_min_le_foldl_max (l : List ℚ) (a : ℚ) :
    l.foldl min a ≤ l.foldl max a :=
  le_trans (foldl_min_le_init l a) (foldl_max_ge_init l a)

/-- Coordinate-wise description of the bounding-box fold: each of the six
output coordinates is an independent min- or max-fold. -/
theorem bb_fold_proj (l : List point) : ∀ acc : point × point,
    (l.foldl bbStep acc).1.x = (l.map point.x).foldl min acc.1.x ∧
    (l.foldl bbStep acc).1.y = (l.map point.y).foldl min acc.1.y ∧
    (l.foldl bbStep acc).1.z = (l.map point.z).foldl min acc.1.z ∧
    (l.foldl bbStep acc).2.x = (l.map point.x).foldl max acc.2.x ∧
    (l.foldl bbStep acc).2.y = (l.map point.y).foldl max acc.2.y ∧
    (l.foldl bbStep acc).2.z = (l.map point.z).foldl max acc.2.z := by
  induction l with
  | nil => intro acc; exact ⟨rfl, rfl, rfl, rfl, rfl, rfl⟩
  | cons v t ih =>
    intro acc
    simpa only [List.map_cons, List.foldl_cons] using ih (bbStep acc v)

/-- `boundingBox` equals the flat fold over all vertices. -/
theorem boundingBox_eq_flat (ps : List polygon) :
    boundingBox ps = (vertsOf ps).foldl bbStep
      (⟨maxFloat32, maxFloat32, maxFloat32⟩, ⟨-maxFloat32, -maxFloat32, -maxFloat32⟩) := by
  unfold boundingBox vertsOf
  rw [List.foldl_flatten, List.foldl_map]

/-- Value of the min-fold over a shifted nonempty coordinate list. -/
theorem cmin_map_cons (x0 : ℚ) (t : List ℚ) (d : ℚ) :
    ((x0 :: t).map (fun u => u + d)).foldl min maxFloat32
      = min maxFloat32 (t.foldl min x0 + d) := by
  simp only [List.map_cons, List.foldl_cons]
  rw [show min maxFloat32 (x0 + d) = min maxFloat32 (x0 + d) from rfl]
  rw [foldl_min_comm, foldl_min_shift]

/-- Value of the max-fold over a shifted nonempty coordinate list. -/
theorem cmax_map_cons (x0 : ℚ) (t : List ℚ) (d : ℚ) :
    ((x0 :: t).map (fun u => u + d)).foldl max (-maxFloat32)
      = max (-maxFloat32) (t.foldl max x0 + d) := by
  simp only [List.map_cons, List.foldl_cons]
  rw [foldl_max_comm, foldl_max_shift]

/-- Value of the min-fold over a nonempty coordinate list whose head is
bounded by the sentinel. -/
theorem cmin_cons (x0 : ℚ) (t : List ℚ) (h : x0 ≤ maxFloat32) :
    (x0 :: t).foldl min maxFloat32 = t.foldl min x0 := by
  simp only [List.foldl_cons]
  rw [foldl_min_comm]
  exact min_eq_right (le_trans (foldl_min_le_init t x0) h)

/-- Value of the max-fold over a nonempty coordinate list whose head is
bounded below by the negated sentinel. -/
theorem cmax_cons (x0 : ℚ) (t : List ℚ) (h : -maxFloat32 ≤ x0) :
    (x0 :: t).foldl max (-maxFloat32) = t.foldl max x0 := by
  simp only [List.foldl_cons]
  rw [foldl_max_comm]
  exact max_eq_right (le_trans h (foldl_max_ge_init t x0))

/-- After shifting a nonempty coordinate list by the centering offset for
that coordinate, the min- and max-folds evaluate to `±(U - T)/2` where
`T`/`U` are the true minimum and maximum. -/
theorem center_scalar (x0 : ℚ) (t : List ℚ) (h1 : x0 ≤ maxFloat32)
    (h2 : -maxFloat32 ≤ x0) (d : ℚ)
    (hd : d = -((x0 :: t).foldl min maxFloat32)
        - ((x0 :: t).foldl max (-maxFloat32) - (x0 :: t).foldl min maxFloat32) / 2) :
    ((x0 :: t).map (fun u => u + d)).foldl min maxFloat32
        = (t.foldl min x0 - t.foldl max x0) / 2 ∧
    ((x0 :: t).map (fun u => u + d)).foldl max (-maxFloat32)
        = (t.foldl max x0 - t.foldl min x0) / 2 := by
  have hTU : t.foldl min x0 ≤ t.foldl max x0 := foldl_min_le_foldl_max t x0
  rw [cmin_cons x0 t h1, cmax_cons x0 t h2] at hd
  constructor
  · rw [cmin_map_cons]
    have he : t.foldl min x0 + d = (t.foldl min x0 - t.foldl max x0) / 2 := by
      rw [hd]; ring
    rw [he]
    exact min_eq_right (le_trans (by linarith) maxFloat32_nonneg)
  · rw [cmax_map_cons]
    have he : t.foldl max x0 + d = (t.foldl max x0 - t.foldl min x0) / 2 := by
      rw [hd]; ring
    rw [he]
    refine max_eq_right (le_trans (neg_nonpos_of_nonneg maxFloat32_nonneg) ?_)
    linarith

/-- After shifting a nonempty coordinate list by the negated minimum, the
min-fold evaluates to `0` (the Z component of the centering transform). -/
theorem center_scalar_z (x0 : ℚ) (t : List ℚ) (h1 : x0 ≤ maxFloat32) (d : ℚ)
    (hd : d = -((x0 :: t).foldl min maxFloat32)) :
    ((x0 :: t).map (fun u => u + d)).foldl min maxFloat32 = 0 := by
  rw [cmin_cons x0 t h1] at hd
  rw [cmin_map_cons]
  have he : t.foldl min x0 + d = 0 := by rw [hd]; ring
  rw [he]
  exact min_eq_right maxFloat32_nonneg

/-- The six coordinates of `boundingBox` as flat min and max folds over
the vertex coordinate lists. -/
theorem boundingBox_coords (ps : List polygon) :
    (boundingBox ps).1.x = ((vertsOf ps).map point.x).foldl min maxFloat32 ∧
    (boundingBox ps).1.y = ((vertsOf ps).map point.y).foldl min maxFloat32 ∧
    (boundingBox ps).1.z = ((vertsOf ps).map point.z).foldl min maxFloat32 ∧
    (boundingBox ps).2.x = ((vertsOf ps).map point.x).foldl max (-maxFloat32) ∧
    (boundingBox ps).2.y = ((vertsOf ps).map point.y).foldl max (-maxFloat32) ∧
    (boundingBox ps).2.z = ((vertsOf ps).map point.z).foldl max (-maxFloat32) := by
  rw [boundingBox_eq_flat]
  exact bb_fold_proj (vertsOf ps) _

/-- Mapping a vertex transformation over every facet maps it over the
flattened vertex list. -/
theorem vertsOf_map (ps : List polygon) (g : point → point) :
    vertsOf (ps.map fun p => ⟨p.vertices.map g⟩) = (vertsOf ps).map g := by
  unfold vertsOf
  simp [List.map_map, Function.comp_def, List.map_flatten]

/-- Membership in the flattened vertex list. -/
theorem mem_vertsOf (v : point) (ps : List polygon) :
    v ∈ vertsOf ps ↔ ∃ p ∈ ps, v ∈ p.vertices := by
  simp [vertsOf]

/-- A nonempty mesh whose facets all have 3 vertices has a nonempty
flattened vertex list. -/
theorem vertsOf_ne_nil (ps : List polygon) (hne : ps ≠ [])
    (h3 : ∀ p ∈ ps, p.vertices.length = 3) : vertsOf ps ≠ [] := by
  obtain ⟨p, ps', rfl⟩ := List.exists_cons_of_ne_nil hne
  have hlen := h3 p (List.mem_cons_self p ps')
  intro h
  unfold vertsOf at h
  simp only [List.map_cons, List.flatten_cons, List.append_eq_nil] at h
  rw [h.1] at hlen
  simp at hlen

/-- The bounding box of a centered nonempty mesh: `minX' + maxX' = 0`,
`minY' + maxY' = 0` and `minZ' = 0`.  Shared backbone of C1 and C8. -/
theorem centered_props (ps : List polygon) (hne : ps ≠ [])
    (h3 : ∀ p ∈ ps, p.vertices.length = 3) (hb : coordsBounded ps) :
    (boundingBox (postProcess true ps)).1.x + (boundingBox (postProcess true ps)).2.x = 0 ∧
    (boundingBox (postProcess true ps)).1.y + (boundingBox (postProcess true ps)).2.y = 0 ∧
    (boundingBox (postProcess true ps)).1.z = 0 := by
  obtain ⟨v, t, hvt⟩ := List.exists_cons_of_ne_nil (vertsOf_ne_nil ps hne h3)
  obtain ⟨p, hp, hvp⟩ := (mem_vertsOf v ps).1 (hvt ▸ List.mem_cons_self v t)
  obtain ⟨⟨hx1, hx2⟩, ⟨hy1, hy2⟩, ⟨hz1, hz2⟩⟩ := hb p hp v hvp
  have hverts : vertsOf (postProcess true ps)
      = (v :: t).map (fun u => u.add (delta ps)) := by
    rw [show postProcess true ps
        = ps.map (fun p => ⟨p.vertices.map (fun u => u.add (delta ps))⟩) from rfl]
    rw [vertsOf_map, hvt]
  obtain ⟨c1, c2, c3, c4, c5, c6⟩ := boundingBox_coords (postProcess true ps)
  obtain ⟨o1, o2, o3, o4, o5, o6⟩ := boundingBox_coords ps
  have hvx : (vertsOf ps).map point.x = v.x :: t.map point.x := by
    rw [hvt, List.map_cons]
  have hvy : (vertsOf ps).map point.y = v.y :: t.map point.y := by
    rw [hvt, List.map_cons]
  have hvz : (vertsOf ps).map point.z = v.z :: t.map point.z := by
    rw [hvt, List.map_cons]
  have hmx : ((v :: t).map (fun u => u.add (delta ps))).map point.x
      = (v.x :: t.map point.x).map (fun u => u + (delta ps).x) := by
    simp [List.map_map, Function.comp_def, point.add]
  have hmy : ((v :: t).map (fun u => u.add (delta ps))).map point.y
      = (v.y :: t.map point.y).map (fun u => u + (delta ps).y) := by
    simp [List.map_map, Function.comp_def, point.add]
  have hmz : ((v :: t).map (fun u => u.add (delta ps))).map point.z
      = (v.z :: t.map point.z).map (fun u => u + (delta ps).z) := by
    simp [List.map_map, Function.comp_def, point.add]
  have hdx : (delta ps).x = -((v.x :: t.map point.x).foldl min maxFloat32)
      - ((v.x :: t.map point.x).foldl max (-maxFloat32)
          - (v.x :: t.map point.x).foldl min maxFloat32) / 2 := by
    show -(boundingBox ps).1.x - ((boundingBox ps).2.x - (boundingBox ps).1.x) / 2 = _
    rw [o1, o4, hvx]
  have hdy : (delta ps).y = -((v.y :: t.map point.y).foldl min maxFloat32)
      - ((v.y :: t.map point.y).foldl max (-maxFloat32)
          - (v.y :: t.map point.y).foldl min maxFloat32) / 2 := by
    show -(boundingBox ps).1.y - ((boundingBox ps).2.y - (boundingBox ps).1.y) / 2 = _
    rw [o2, o5, hvy]
  have hdz : (delta ps).z = -((v.z :: t.map point.z).foldl min maxFloat32) := by
    show -(boundingBox ps).1.z = _
    rw [o3, hvz]
  obtain ⟨ex1, ex2⟩ := center_scalar v.x (t.map point.x) hx2 hx1 (delta ps).x hdx
  obtain ⟨ey1, ey2⟩ := center_scalar v.y (t.map point.y) hy2 hy1 (delta ps).y hdy
  have ez := center_scalar_z v.z (t.map point.z) hz2 (delta ps).z hdz
  refine ⟨?_, ?_, ?_⟩
  · rw [c1, c4, hverts, hmx, ex1, ex2]; ring
  · rw [c2, c5, hverts, hmy, ey1, ey2]; ring
  · rw [c3, hverts, hmz, ez]

/-- C1: For every non-empty facet list (all facets triangular, all
coordinates in `float32` range), `postProcess` with centering enabled adds
`delta = (-minX - (maxX-minX)/2, -minY - (maxY-minY)/2, -minZ)` to every
vertex of every facet, after which `minX' + maxX' = 0`, `minY' + maxY' = 0`
and `minZ' = 0`: the mesh is centered in X/Y only, not in Z. -/
theorem C1_centering (ps : List polygon) (hne : ps ≠ [])
    (h3 : ∀ p ∈ ps, p.vertices.length = 3) (hb : coordsBounded ps) :
    postProcess true ps
      = ps.map (fun p => ⟨p.vertices.map (fun v => v.add (delta ps))⟩) ∧
    (boundingBox (postProcess true ps)).1.x + (boundingBox (postProcess true ps)).2.x = 0 ∧
    (boundingBox (postProcess true ps)).1.y + (boundingBox (postProcess true ps)).2.y = 0 ∧
    (boundingBox (postProcess true ps)).1.z = 0 :=
  ⟨rfl, centered_props ps hne h3 hb⟩

/-- Adding the zero vector is the identity on points. -/
theorem point_add_zero (v : point) : v.add ⟨0, 0, 0⟩ = v := by
  simp [point.add]

/-- C8: Applying the centering transform twice yields the same result as
applying it once: on the already-centered mesh the computed `delta` is the
zero vector, so the second application is a no-op. -/
theorem C8_idempotent (ps : List polygon) (hne : ps ≠ [])
    (h3 : ∀ p ∈ ps, p.vertices.length = 3) (hb : coordsBounded ps) :
    delta (postProcess true ps) = ⟨0, 0, 0⟩ ∧
    postProcess true (postProcess true ps) = postProcess true ps := by
  obtain ⟨e1, e2, e3⟩ := centered_props ps hne h3 hb
  have hdelta : delta (postProcess true ps) = ⟨0, 0, 0⟩ := by
    unfold delta
    rw [point.mk.injEq]
    refine ⟨by linarith, by linarith, by rw [e3]; ring⟩
  refine ⟨hdelta, ?_⟩
  rw [show postProcess true (postProcess true ps)
      = (postProcess true ps).map (fun p =>
          ⟨p.vertices.map (fun v => v.add (delta (postProcess true ps)))⟩) from rfl]
  rw [hdelta]
  simp [point_add_zero]

/-- Witness for C1 at the concrete mesh `wmesh`. -/
theorem C1_witness : wmesh ≠ [] ∧
    ((boundingBox (postProcess true wmesh)).1.x + (boundingBox (postProcess true wmesh)).2.x = 0 ∧
     (boundingBox (postProcess true wmesh)).1.y + (boundingBox (postProcess true wmesh)).2.y = 0 ∧
     (boundingBox (postProcess true wmesh)).1.z = 0) :=
  ⟨by decide, (C1_centering wmesh (by decide) (by decide)
    (by norm_num [coordsBounded, wmesh, maxFloat32])).2⟩

/-- Witness for C8 at the concrete mesh `wmesh`. -/
theorem C8_witness : wmesh ≠ [] ∧ delta (postProcess true wmesh) = ⟨0, 0, 0⟩ :=
  ⟨by decide, (C8_idempotent wmesh (by decide) (by decide)
    (by norm_num [coordsBounded, wmesh, maxFloat32])).1⟩

theorem rhe_15 : rhe ((3 / 2 : ℚ) * 10 ^ 10) = 15000000000 := by
  unfold rhe; norm_num

theorem rhe_2 : rhe ((2 : ℚ) * 10 ^ 10) = 20000000000 := by
  unfold rhe; norm_num

theorem rhe_01 : rhe ((13421773 / 134217728 : ℚ) * 10 ^ 10) = 1000000015 := by
  unfold rhe; norm_num

theorem rhe_0 : rhe ((0 : ℚ) * 10 ^ 10) = 0 := by
  unfold rhe; norm_num

/-- C2 (corrected): what `ftos` really produces on the claim's inputs.
`1.5` and `2.0` round-trip as claimed; but the `float32` nearest `0.1`
is `13421773/2^27`, whose 10-decimal rendering is `0.1000000015` (the
trailing digits are not zeros, so nothing is stripped); and negative zero
keeps its sign under `%.10f`, so `ftos(-0.0) = "-0"`. -/
theorem C2_ftos :
    ftos ⟨false, 3 / 2⟩ = "1.5" ∧
    ftos ⟨false, 2⟩ = "2" ∧
    ftos ⟨false, 13421773 / 134217728⟩ = "0.1000000015" ∧
    ftos ⟨true, 0⟩ = "-0" := by
  refine ⟨?_, ?_, ?_, ?_⟩
  · show String.mk (stripDot (stripZeros
      (fmtFixed10 false (rhe ((3 / 2 : ℚ) * 10 ^ 10)).toNat))) = "1.5"
    rw [rhe_15]; decide
  · show String.mk (stripDot (stripZeros
      (fmtFixed10 false (rhe ((2 : ℚ) * 10 ^ 10)).toNat))) = "2"
    rw [rhe_2]; decide
  · show String.mk (stripDot (stripZeros
      (fmtFixed10 false (rhe ((13421773 / 134217728 : ℚ) * 10 ^ 10)).toNat))) = "0.1000000015"
    rw [rhe_01]; decide
  · show String.mk (stripDot (stripZeros
      (fmtFixed10 true (rhe ((0 : ℚ) * 10 ^ 10)).toNat))) = "-0"
    rw [rhe_0]; decide

/-- C2 counterexample: the claim fails on the code at the concrete inputs
`0.1` (as a `float32`, exactly `13421773/2^27`) and `-0.0`: `ftos`
produces `"0.1000000015"` rather than `"0.1"`, and `"-0"` rather than
`"0"`. -/
theorem C2_counterexample :
    ftos ⟨false, 13421773 / 134217728⟩ ≠ "0.1" ∧ ftos ⟨true, 0⟩ ≠ "0" := by
  constructor
  · show String.mk (stripDot (stripZeros
      (fmtFixed10 false (rhe ((13421773 / 134217728 : ℚ) * 10 ^ 10)).toNat))) ≠ "0.1"
    rw [rhe_01]; decide
  · show String.mk (stripDot (stripZeros
      (fmtFixed10 true (rhe ((0 : ℚ) * 10 ^ 10)).toNat))) ≠ "0"
    rw [rhe_0]; decide

/-- Generalized accumulation of the `writeOpenScad` loop. -/
theorem scad_fold (ps : List polygon) (h3 : ∀ p ∈ ps, p.vertices.length = 3) :
    ∀ (a b : List String) (k : ℕ),
    ps.foldl scadStep (a, b, k)
      = (a ++ (vertsOf ps).map pointToOpenScad,
         b ++ (List.range ps.length).map (fun i => facesToOpenScad (k + 3 * i) 3),
         k + 3 * ps.length) := by
  induction ps with
  | nil => intro a b k; simp [vertsOf]
  | cons p t ih =>
    intro a b k
    have hp : p.vertices.length = 3 := h3 p (List.mem_cons_self p t)
    have ht : ∀ q ∈ t, q.vertices.length = 3 :=
      fun q hq => h3 q (List.mem_cons_of_mem p hq)
    simp only [List.foldl_cons, scadStep, hp]
    rw [ih ht]
    refine congrArg₂ _ ?_ (congrArg₂ _ ?_ ?_)
    · rw [List.append_assoc]
      refine congrArg _ ?_
      rw [show vertsOf (p :: t) = p.vertices ++ vertsOf t by
        simp [vertsOf]]
      rw [List.map_append]
    · rw [List.append_assoc]
      refine congrArg _ ?_
      rw [show (p :: t).length = t.length + 1 from rfl, List.range_succ_eq_map]
      simp only [List.map_cons, List.map_map, List.singleton_append, Function.comp_def]
      refine congrArg₂ _ (by rw [Nat.mul_zero, Nat.add_zero]) ?_
      refine List.map_congr_left fun i _ => ?_
      refine congrArg₂ _ ?_ rfl
      omega
    · simp [List.length_cons]; ring

/-- C5: one face entry per facet; the i-th entry is the index list
`[3i, 3i+1, 3i+2]`; the point list is the flattened per-facet vertex
list, never deduplicated, so every facet's indices are contiguous and
increasing. -/
theorem C5_faces (ps : List polygon) (h3 : ∀ p ∈ ps, p.vertices.length = 3) :
    (scadLists ps).1 = (vertsOf ps).map pointToOpenScad ∧
    (scadLists ps).2.1
      = (List.range ps.length).map (fun i => facesToOpenScad (3 * i) 3) ∧
    ∀ start : ℕ, facesToOpenScad start 3
      = "[" ++ toString start ++ "," ++ toString (start + 1) ++ ","
          ++ toString (start + 2) ++ "]" := by
  refine ⟨?_, ?_, ?_⟩
  · rw [scadLists, scad_fold ps h3]
    simp
  · rw [scadLists, scad_fold ps h3]
    simp
  · intro start
    show "[" ++ joinSep ","
        ((List.range 3).map (fun i => toString (start + i))) ++ "]" = _
    rw [show (List.range 3) = [0, 1, 2] by decide]
    simp only [List.map_cons, List.map_nil, joinSep, Nat.add_zero]
    simp [String.append_assoc]

/-- Witness for C5 at the concrete two-facet mesh. -/
theorem C5_witness : (∀ p ∈ wmesh2, p.vertices.length = 3) ∧
    (scadLists wmesh2).2.1
      = (List.range wmesh2.length).map (fun i => facesToOpenScad (3 * i) 3) :=
  ⟨by decide, (C5_faces wmesh2 (by decide)).2.1⟩

/-- C6: a non-empty `-module` flag wins over the ASCII file's declared
solid name, which wins over the default `"shape"`; a binary input without
an override uses `"shape"`, and the file's declared name is used only
when no flag was supplied. -/
theorem C6_module_name (flag s : String) :
    (flag ≠ "" → resolveModuleName flag (some s) = flag
        ∧ resolveModuleName flag none = flag) ∧
    (s ≠ "" → resolveModuleName "" (some s) = s) ∧
    resolveModuleName "" none = "shape" := by
  refine ⟨fun h => ⟨?_, ?_⟩, fun h => ?_, rfl⟩
  · simp [resolveModuleName, h]
  · simp [resolveModuleName, h]
  · simp [resolveModuleName, h]

/-- Witness for C6: flag `"m"` beats file name `"cube"`; file name is
used without a flag; binary with no flag gives `"shape"`. -/
theorem C6_witness :
    ("m" : String) ≠ "" ∧ ("cube" : String) ≠ "" ∧
    resolveModuleName "m" (some "cube") = "m" ∧
    resolveModuleName "" (some "cube") = "cube" ∧
    resolveModuleName "" none = "shape" :=
  ⟨by decide, by decide,
   ((C6_module_name "m" "cube").1 (by decide)).1,
   (C6_module_name "" "cube").2.1 (by decide),
   (C6_module_name "" "").2.2⟩

/-- C7: the detector inspects exactly the first 6 bytes, consumes
nothing, dispatches to the ASCII decoder iff they are `"solid "` and to
the binary decoder otherwise; the detection itself is total (it can
never fail on any byte stream). -/
theorem C7_detector (bs : List ℕ) :
    (detectFormat bs).2 = bs ∧
    ((detectFormat bs).1 = Format.ascii ↔ bs.take 6 = solidMagic) ∧
    ((detectFormat bs).1 = Format.binary ↔ bs.take 6 ≠ solidMagic) := by
  by_cases h : bs.take 6 = solidMagic <;> simp [detectFormat, h]

theorem except_bind_ok {α β : Type} (a : α) (f : α → Except String β) :
    (Except.ok a >>= f) = f a := rfl

theorem except_bind_err {α β : Type} (e : String) (f : α → Except String β) :
    ((Except.error e : Except String α) >>= f) = .error e := rfl

theorem except_map_ok {α β : Type} (g : α → β) (a : α) :
    (g <$> (Except.ok a : Except String α)) = .ok (g a) := rfl

theorem expect_toks (e : String) (ts : List Tok) :
    expect e (.word e :: ts) = .ok ts := by
  simp [expect, next]

theorem readFloat_toks (q : ℚ) (ts : List Tok) :
    readFloat (.num q :: ts) = .ok (q, ts) := rfl

theorem readPoint_toks (p : point) (ts : List Tok) :
    readPoint (pointToks p ++ ts) = .ok (p, ts) := rfl

theorem readFacet_toks (t : tri) (ts : List Tok) :
    readFacet (triBody t ++ ts) = .ok (t.poly, ts) := by
  simp only [triBody, List.cons_append, List.append_assoc]
  simp [readFacet, expect, next, readPoint, readFloat, pointToks, tri.poly,
    except_bind_ok, except_map_ok]

theorem readFacetsLoop_toks (fs : List tri) : ∀ (fuel : ℕ),
    fs.length < fuel → ∀ (tk : Tok) (rest : List Tok), tk ≠ .word "facet" →
    readFacetsLoop fuel ((fs.map triToks).flatten ++ tk :: rest)
      = .ok (fs.map tri.poly, tk, rest) := by
  induction fs with
  | nil =>
    intro fuel _ tk rest htk
    cases fuel <;> simp [readFacetsLoop, next, htk]
  | cons f ft ih =>
    intro fuel hfuel tk rest htk
    cases fuel with
    | zero => exact absurd hfuel (by omega)
    | succ n =>
      have hrec := ih n (by simpa using Nat.lt_of_succ_lt_succ hfuel) tk rest htk
      simp only [List.map_cons, List.flatten_cons, triToks, List.cons_append,
        List.append_assoc]
      simp only [readFacetsLoop, next, ite_true]
      rw [readFacet_toks]
      simp only [except_bind_ok, hrec]
      rfl

/-- Decoding an encoded ASCII stream succeeds, yields the declared name,
all facets in order, and leaves everything after the trailing name token
unread. -/
theorem readAscii_toks (name : Tok) (fs : List tri) (rest : List Tok) :
    readAscii (asciiToks name fs rest)
      = .ok (name.text, fs.map tri.poly, (next rest).2) := by
  have hlen : fs.length < ((fs.map triToks).flatten ++ .word "endsolid" :: rest).length + 1 := by
    rw [List.length_append]
    have : fs.length ≤ ((fs.map triToks).flatten).length := by
      induction fs with
      | nil => simp
      | cons f ft ih =>
        simp only [List.map_cons, List.flatten_cons, List.length_append,
          List.length_cons]
        simp only [triToks, List.length_cons]
        omega
    omega
  have hloop := readFacetsLoop_toks fs
    (((fs.map triToks).flatten ++ .word "endsolid" :: rest).length + 1)
    hlen (.word "endsolid") rest (by decide)
  show (expect "solid" (asciiToks name fs rest) >>= _) = _
  rw [show asciiToks name fs rest = .word "solid"
      :: (name :: ((fs.map triToks).flatten ++ .word "endsolid" :: rest)) from rfl]
  rw [expect_toks, except_bind_ok]
  show (readFacetsLoop _ _ >>= _) = _
  rw [show next (name :: ((fs.map triToks).flatten ++ .word "endsolid" :: rest))
      = (name, (fs.map triToks).flatten ++ .word "endsolid" :: rest) from rfl]
  rw [hloop, except_bind_ok]
  simp only [next]
  rfl

/-! #### Completeness: a successful parse pins down the token stream -/

theorem bind_eq_ok {α β : Type} {x : Except String α} {f : α → Except String β}
    {b : β} (h : x >>= f = .ok b) : ∃ a, x = .ok a ∧ f a = .ok b := by
  cases x with
  | error e => exact absurd h (by simp [except_bind_err])
  | ok a => exact ⟨a, rfl, h⟩

theorem map_eq_ok {α β : Type} {g : α → β} {x : Except String α} {b : β}
    (h : g <$> x = .ok b) : ∃ a, x = .ok a ∧ g a = b := by
  cases x with
  | error e => exact absurd h (by simp [Except.map])
  | ok a =>
    refine ⟨a, rfl, ?_⟩
    rw [except_map_ok] at h
    injection h

theorem expect_ok {e : String} (he : e ≠ "") {ts ts' : List Tok}
    (h : expect e ts = .ok ts') : ts = .word e :: ts' := by
  cases ts with
  | nil =>
    simp only [expect, next] at h
    split at h
    · rename_i hc
      injection hc with hc
      exact absurd hc.symm he
    · cases h
  | cons t r =>
    simp only [expect, next] at h
    split at h
    · rename_i hc
      injection h with h
      rw [hc, h]
    · cases h

theorem readFloat_ok {ts : List Tok} {q : ℚ} {ts' : List Tok}
    (h : readFloat ts = .ok (q, ts')) : ts = .num q :: ts' := by
  cases ts with
  | nil => simp [readFloat, next] at h
  | cons t r =>
    cases t with
    | word s => simp [readFloat, next] at h
    | num q2 =>
      simp only [readFloat, next] at h
      injection h with h
      rw [Prod.mk.injEq] at h
      rw [h.1, h.2]

theorem except_ok_pair_inj {α β : Type} {a1 b1 : α} {a2 b2 : β}
    (h : (Except.ok (a1, a2) : Except String (α × β)) = .ok (b1, b2)) :
    a1 = b1 ∧ a2 = b2 := by
  injection h with h
  exact ⟨congrArg Prod.fst h, congrArg Prod.snd h⟩

theorem except_ok_triple_inj {α β γ : Type} {a1 b1 : α} {a2 b2 : β} {a3 b3 : γ}
    (h : (Except.ok (a1, a2, a3) : Except String (α × β × γ)) = .ok (b1, b2, b3)) :
    a1 = b1 ∧ a2 = b2 ∧ a3 = b3 := by
  injection h with h
  exact ⟨congrArg Prod.fst h, congrArg (fun u => u.2.1) h,
    congrArg (fun u => u.2.2) h⟩

theorem readPoint_ok {ts : List Tok} {p : point} {ts' : List Tok}
    (h : readPoint ts = .ok (p, ts')) : ts = pointToks p ++ ts' := by
  unfold readPoint at h
  obtain ⟨⟨x, ts1⟩, h1, hk⟩ := bind_eq_ok h
  try dsimp only at hk
  obtain ⟨⟨y, ts2⟩, h2, hk2⟩ := bind_eq_ok hk
  try dsimp only at hk2
  obtain ⟨⟨z, ts3⟩, h3, hk3⟩ := bind_eq_ok hk2
  try dsimp only at hk3
  obtain ⟨hp, hts⟩ := except_ok_pair_inj hk3
  rw [readFloat_ok h1, readFloat_ok h2, readFloat_ok h3, ← hp, ← hts]
  rfl

theorem readFacet_ok {ts : List Tok} {p : polygon} {ts' : List Tok}
    (h : readFacet ts = .ok (p, ts')) :
    ∃ t : tri, p = t.poly ∧ ts = triBody t ++ ts' := by
  unfold readFacet at h
  obtain ⟨ts1, e1, k1⟩ := bind_eq_ok h
  try dsimp only at k1
  obtain ⟨⟨n, ts2⟩, e2, k2⟩ := bind_eq_ok k1
  try dsimp only at k2
  obtain ⟨ts3, e3, k3⟩ := bind_eq_ok k2
  try dsimp only at k3
  obtain ⟨ts4, e4, k4⟩ := bind_eq_ok k3
  try dsimp only at k4
  obtain ⟨ts5, e5, k5⟩ := bind_eq_ok k4
  try dsimp only at k5
  obtain ⟨⟨v1, ts6⟩, e6, k6⟩ := bind_eq_ok k5
  try dsimp only at k6
  obtain ⟨ts7, e7, k7⟩ := bind_eq_ok k6
  try dsimp only at k7
  obtain ⟨⟨v2, ts8⟩, e8, k8⟩ := bind_eq_ok k7
  try dsimp only at k8
  obtain ⟨ts9, e9, k9⟩ := bind_eq_ok k8
  try dsimp only at k9
  obtain ⟨⟨v3, ts10⟩, e10, k10⟩ := bind_eq_ok k9
  try dsimp only at k10
  obtain ⟨ts11, e11, k11⟩ := bind_eq_ok k10
  try dsimp only at k11
  obtain ⟨ts12, e12, k12⟩ := map_eq_ok k11
  have hp : (⟨[v1, v2, v3]⟩ : polygon) = p := congrArg Prod.fst k12
  have hts : ts12 = ts' := congrArg Prod.snd k12
  refine ⟨⟨n, v1, v2, v3⟩, by rw [← hp]; rfl, ?_⟩
  rw [expect_ok (by decide) e1, readPoint_ok e2, expect_ok (by decide) e3,
    expect_ok (by decide) e4, expect_ok (by decide) e5, readPoint_ok e6,
    expect_ok (by decide) e7, readPoint_ok e8, expect_ok (by decide) e9,
    readPoint_ok e10, expect_ok (by decide) e11, expect_ok (by decide) e12,
    ← hts]
  simp [triBody, pointToks]

theorem readFacetsLoop_ok : ∀ (fuel : ℕ) (ts : List Tok) (ps : List polygon)
    (tk : Tok) (rest : List Tok),
    readFacetsLoop fuel ts = .ok (ps, tk, rest) →
    ∃ (fs : List tri) (rest0 : List Tok),
      ps = fs.map tri.poly ∧ ts = (fs.map triToks).flatten ++ rest0 ∧
      next rest0 = (tk, rest) ∧ tk ≠ .word "facet" := by
  intro fuel
  induction fuel with
  | zero =>
    intro ts ps tk rest h
    simp only [readFacetsLoop] at h
    split at h
    · cases h
    · rename_i hc
      obtain ⟨ha, hb, hd⟩ := except_ok_triple_inj h
      refine ⟨[], ts, ha.symm, by simp, ?_, ?_⟩
      · rw [← hb, ← hd]
      · rw [← hb]; exact hc
  | succ n ih =>
    intro ts ps tk rest h
    simp only [readFacetsLoop] at h
    split at h
    · rename_i hc
      obtain ⟨⟨p, ts2⟩, h1, k1⟩ := bind_eq_ok h
      try dsimp only at k1
      obtain ⟨⟨ps2, tk2, rest2⟩, h2, k2⟩ := bind_eq_ok k1
      try dsimp only at k2
      obtain ⟨ha, hb, hd⟩ := except_ok_triple_inj k2
      obtain ⟨t, hp, hts2⟩ := readFacet_ok h1
      obtain ⟨fs2, rest0, hps2, hsh, hnx, htk⟩ := ih ts2 ps2 tk2 rest2 h2
      cases ts with
      | nil => exact absurd hc (by simp [next])
      | cons t0 r =>
        simp only [next] at hc hts2
        refine ⟨t :: fs2, rest0, ?_, ?_, ?_, ?_⟩
        · rw [← ha, hp, hps2]; rfl
        · rw [hc, hts2, hsh]
          simp [triToks]
        · rw [← hb, ← hd]; exact hnx
        · rw [← hb]; exact htk
    · rename_i hc
      obtain ⟨ha, hb, hd⟩ := except_ok_triple_inj h
      refine ⟨[], ts, ha.symm, by simp, ?_, ?_⟩
      · rw [← hb, ← hd]
      · rw [← hb]; exact hc

theorem readAscii_ok {ts : List Tok} {nm : String} {ps : List polygon}
    {rest : List Tok} (h : readAscii ts = .ok (nm, ps, rest)) :
    ∃ (name : Tok) (fs : List tri) (rest1 : List Tok),
      ts = asciiToks name fs rest1 ∧ nm = name.text ∧
      ps = fs.map tri.poly ∧ rest = (next rest1).2 := by
  unfold readAscii at h
  obtain ⟨ts1, h1, k1⟩ := bind_eq_ok h
  have hts := expect_ok (by decide) h1
  try dsimp only at k1
  obtain ⟨⟨ps0, tk, restL⟩, h2, k2⟩ := bind_eq_ok k1
  try dsimp only at k2
  split at k2
  · rename_i hc
    obtain ⟨ha, hb, hd⟩ := except_ok_triple_inj k2
    obtain ⟨fs, rest0, hps0, hsh, hnx, _⟩ := readFacetsLoop_ok _ _ _ _ _ h2
    rw [hc] at hnx
    cases rest0 with
    | nil =>
      exfalso
      simp only [next, Prod.mk.injEq] at hnx
      exact absurd hnx.1 (by decide)
    | cons r0 rl =>
      simp only [next, Prod.mk.injEq] at hnx
      cases ts1 with
      | nil =>
        exfalso
        simp only [next] at hsh
        rw [hnx.1] at hsh
        exact absurd hsh.symm (by simp)
      | cons nameTok ts2 =>
        simp only [next] at hsh ha hb hd
        refine ⟨nameTok, fs, rl, ?_, ?_, ?_, ?_⟩
        · rw [hts, asciiToks, hsh, hnx.1, hnx.2]
          simp [List.cons_append]
        · exact ha.symm
        · rw [← hb, hps0]
        · rw [← hd, hnx.2]
          rfl
  · cases k2

/-- C9: the ASCII decoder succeeds exactly on the token streams of the
STL grammar (`solid <name>`, facet blocks, `endsolid`, anything after);
every deviating stream makes the run abort with an `Except.error` (no
partial output, no recovery), and the mismatch errors of `expect` and
`readFloat` name the expected vs actual (or offending) token. -/
theorem C9_errors (ts : List Tok) :
    ((∃ r, readAscii ts = .ok r)
        ↔ ∃ (name : Tok) (fs : List tri) (rest : List Tok),
            ts = asciiToks name fs rest) ∧
    (∀ (e : String) (t : Tok) (ts2 : List Tok), t ≠ Tok.word e →
        expect e (t :: ts2)
          = .error ("Expected \"" ++ e ++ "\", but got \"" ++ t.text ++ "\".")) ∧
    (∀ (s : String) (ts2 : List Tok),
        readFloat (Tok.word s :: ts2)
          = .error ("Cannot convert \"" ++ s ++ "\" to float.")) := by
  refine ⟨⟨?_, ?_⟩, ?_, ?_⟩
  · rintro ⟨⟨nm, ps, rest⟩, h⟩
    obtain ⟨name, fs, rest1, hsh, _⟩ := readAscii_ok h
    exact ⟨name, fs, rest1, hsh⟩
  · rintro ⟨name, fs, rest, rfl⟩
    exact ⟨_, readAscii_toks name fs rest⟩
  · intro e t ts2 ht
    simp [expect, next, ht]
  · intro s ts2
    rfl

/-- Witness for C9: a concrete grammar deviation (`oops` where `normal`
is expected) produces the fatal message naming expected vs actual. -/
theorem C9_witness :
    (Tok.word "oops" ≠ Tok.word "normal") ∧
    expect "normal" [Tok.word "oops"]
      = .error "Expected \"normal\", but got \"oops\"." :=
  ⟨by decide, (C9_errors []).2.1 "normal" (Tok.word "oops") [] (by decide)⟩

/-- C10: after `endsolid` and the single name token following it, the
ASCII decoder reads nothing further: any trailing tokens are returned
unread, cause no error, and have no effect on the decoded facets. -/
theorem C10_trailing (name : Tok) (fs : List tri) (nm2 : Tok)
    (junk : List Tok) :
    readAscii (asciiToks name fs (nm2 :: junk))
      = .ok (name.text, fs.map tri.poly, junk) := by
  have h := readAscii_toks name fs (nm2 :: junk)
  simpa [next] using h

theorem opt_bind_some {α β : Type} (a : α) (f : α → Option β) :
    (some a >>= f) = f a := rfl

theorem rdU32LE_le32 (w : ℕ) (hw : w < 4294967296) (rest : List ℕ) :
    rdU32LE (le32 w ++ rest) = some (w, rest) := by
  simp only [le32, List.cons_append, List.nil_append, rdU32LE]
  have h : w % 256 + 256 * (w / 256 % 256
      + 256 * (w / 65536 % 256 + 256 * (w / 16777216 % 256))) = w := by
    omega
  rw [h]

theorem discardB_exact (pre rest : List ℕ) :
    discardB pre.length (pre ++ rest) = some rest := by
  simp [discardB, List.drop_left]

theorem readPointBinary_enc (w : ℕ × ℕ × ℕ) (hw : w32 w) (rest : List ℕ) :
    readPointBinary (encPt w ++ rest) = some (wpt w, rest) := by
  obtain ⟨h1, h2, h3⟩ := hw
  unfold readPointBinary
  simp only [encPt, List.append_assoc]
  rw [rdU32LE_le32 _ h1, opt_bind_some]
  rw [rdU32LE_le32 _ h2, opt_bind_some]
  rw [rdU32LE_le32 _ h3, opt_bind_some]
  rfl

theorem readTriangles_enc (recs : List brec)
    (hwf : ∀ r ∈ recs, r.nrm.length = 12 ∧ r.att.length = 2 ∧
      w32 r.p1 ∧ w32 r.p2 ∧ w32 r.p3) (junk : List ℕ) :
    readTriangles recs.length ((recs.map brec.bytes).flatten ++ junk)
      = some (recs.map brec.poly, junk) := by
  induction recs with
  | nil => rfl
  | cons r t ih =>
    obtain ⟨hn, ha, hw1, hw2, hw3⟩ := hwf r (List.mem_cons_self r t)
    have ht := fun q hq => hwf q (List.mem_cons_of_mem r hq)
    show readTriangles (t.length + 1) _ = _
    unfold readTriangles
    simp only [List.map_cons, List.flatten_cons, brec.bytes, List.append_assoc]
    rw [show r.nrm ++ (encPt r.p1 ++ (encPt r.p2 ++ (encPt r.p3 ++ (r.att
        ++ ((t.map brec.bytes).flatten ++ junk)))))
      = r.nrm ++ (encPt r.p1 ++ (encPt r.p2 ++ (encPt r.p3 ++ (r.att
        ++ ((t.map brec.bytes).flatten ++ junk))))) from rfl]
    rw [show (12 : ℕ) = r.nrm.length from hn.symm, discardB_exact, opt_bind_some]
    rw [readPointBinary_enc _ hw1, opt_bind_some]
    rw [readPointBinary_enc _ hw2, opt_bind_some]
    rw [readPointBinary_enc _ hw3, opt_bind_some]
    rw [show (2 : ℕ) = r.att.length from ha.symm, discardB_exact, opt_bind_some]
    rw [ih ht, opt_bind_some]
    rfl

/-- Decoding a well-formed encoded binary stream yields exactly the
encoded facets, in order; trailing bytes are ignored. -/
theorem readBinary_enc (hdr : List ℕ) (recs : List brec) (junk : List ℕ)
    (h : binWF hdr recs) :
    readBinary (encodeBinary hdr recs ++ junk) = some (recs.map brec.poly) := by
  obtain ⟨hh, hn, hr⟩ := h
  unfold readBinary encodeBinary
  simp only [List.append_assoc]
  rw [show (80 : ℕ) = hdr.length from hh.symm, discardB_exact, opt_bind_some]
  rw [rdU32LE_le32 _ hn, opt_bind_some]
  rw [readTriangles_enc recs hr junk, opt_bind_some]
  rfl

/-- C4: the binary decoder reads an 80-byte header (skipped), a 4-byte
little-endian unsigned count `N`, then for each of the `N` 50-byte
records skips the 12-byte normal, reads 3 points as little-endian 32-bit
floats, skips the 2-byte attribute field, and appends one facet per
record. -/
theorem C4_binary_layout (hdr : List ℕ) (recs : List brec) (junk : List ℕ)
    (h : binWF hdr recs) :
    readBinary (hdr ++ le32 recs.length ++ (recs.map brec.bytes).flatten ++ junk)
      = some (recs.map brec.poly) := by
  have hb := readBinary_enc hdr recs junk h
  rw [encodeBinary] at hb
  simpa [List.append_assoc] using hb

/-- C3: decoding `N` encoded facets, from ASCII tokens or from binary
bytes, yields exactly `N` facets, each with exactly 3 vertices, in input
order. -/
theorem C3_roundtrip_counts :
    (∀ (name : Tok) (fs : List tri) (rest : List Tok),
      readAscii (asciiToks name fs rest)
          = .ok (name.text, fs.map tri.poly, (next rest).2) ∧
      (fs.map tri.poly).length = fs.length ∧
      ∀ p ∈ fs.map tri.poly, p.vertices.length = 3) ∧
    (∀ (hdr : List ℕ) (recs : List brec) (junk : List ℕ), binWF hdr recs →
      readBinary (encodeBinary hdr recs ++ junk) = some (recs.map brec.poly) ∧
      (recs.map brec.poly).length = recs.length ∧
      ∀ p ∈ recs.map brec.poly, p.vertices.length = 3) := by
  constructor
  · intro name fs rest
    refine ⟨readAscii_toks name fs rest, List.length_map fs tri.poly, ?_⟩
    intro p hp
    obtain ⟨t, _, rfl⟩ := List.mem_map.mp hp
    rfl
  · intro hdr recs junk h
    refine ⟨readBinary_enc hdr recs junk h, List.length_map recs brec.poly, ?_⟩
    intro p hp
    obtain ⟨r, _, rfl⟩ := List.mem_map.mp hp
    rfl

/-- Witness for C3: the ASCII and the binary round-trip theorem applied
at a concrete one-facet input each. -/
theorem C3_witness :
    binWF whdr [wrec] ∧
    readAscii (asciiToks (Tok.word "cube") [⟨⟨0, 0, 1⟩, ⟨0, 0, 0⟩, ⟨1, 0, 0⟩, ⟨0, 1, 0⟩⟩] [])
      = .ok ("cube", [⟨[⟨0, 0, 0⟩, ⟨1, 0, 0⟩, ⟨0, 1, 0⟩]⟩], []) ∧
    readBinary (encodeBinary whdr [wrec] ++ []) = some ([wrec].map brec.poly) :=
  ⟨by simp only [binWF, w32, whdr, wrec]; decide,
   (C3_roundtrip_counts.1 (Tok.word "cube")
      [⟨⟨0, 0, 1⟩, ⟨0, 0, 0⟩, ⟨1, 0, 0⟩, ⟨0, 1, 0⟩⟩] []).1,
   (C3_roundtrip_counts.2 whdr [wrec] []
      (by simp only [binWF, w32, whdr, wrec]; decide)).1⟩

/-- Witness for C4 at the concrete one-record stream. -/
theorem C4_witness :
    binWF whdr [wrec] ∧
    readBinary (whdr ++ le32 [wrec].length ++ ([wrec].map brec.bytes).flatten ++ [])
      = some ([wrec].map brec.poly) :=
  ⟨by simp only [binWF, w32, whdr, wrec]; decide,
   C4_binary_layout whdr [wrec] []
     (by simp only [binWF, w32, whdr, wrec]; decide)⟩

end Stl

